import Mathlib

set_option maxHeartbeats 1000000

/-!
Verification of the failure/survival statistics engine
(`analysis/random_failure_analysis.py`, `analysis/failure_analysis.py`)
and of the packet-journey reconstruction engine
(`simulations/paths_report.py`,
`simulations/Python scripts for dsdv/analyze_100_packet_scenario.py`).

Times are modelled as exact rationals; Python's `round(t, k)` is modelled as
rounding `t * 10^k` to the nearest integer.  List-valued loops are modelled
by structurally recursive functions that keep the source's iteration order.
-/

/-- A raw failure observation `(node, time, repetition)` as collected by
`read_failures_from_sca` / `extract_failures`. -/
structure Failure where
  node : ℤ
  time : ℚ
  rep : ℤ
deriving DecidableEq, Repr

/-- Python's `round(t, 9)`: the time scaled to nanoseconds and rounded to the
nearest integer (the sources use it only to build canonical keys). -/
def roundTo9 (t : ℚ) : ℤ := round (t * 1000000000)

/-- The canonical deduplication key `(repetition, node, round(time, 9))` used
by both analysis scripts. -/
def failureKey (f : Failure) : ℤ × ℤ × ℤ := (f.rep, f.node, roundTo9 f.time)

/-- The deduplication loop of `random_failure_analysis.main` (and of
`extract_failures`): walk the raw list in order, keep the first record of
each canonical key, count every dropped duplicate.  `seen` is the set of
keys already kept. -/
def dedupGo (seen : List (ℤ × ℤ × ℤ)) : List Failure → List Failure × ℕ
  | [] => ([], 0)
  | f :: fs =>
    if failureKey f ∈ seen then
      let r := dedupGo seen fs
      (r.1, r.2 + 1)
    else
      let r := dedupGo (failureKey f :: seen) fs
      (f :: r.1, r.2)

/-- `main`'s deduplication pass: starts with an empty `seen` set and returns
both the deduplicated list and the number of dropped duplicates. -/
def dedupFailures (fs : List Failure) : List Failure × ℕ := dedupGo [] fs

/-- The lines `main` appends to the stats file about duplicate drops: when
`dropped > 0` (and duplicates were not kept) it appends exactly the constant
line written by `stats.write(f'Done.\n')`, otherwise nothing. -/
def dupReportLines (dropped : ℕ) : List String :=
  if 0 < dropped then ["Done."] else []

/-- Stable insertion of a time into an ascending list (helper for the
`sorted(times)` calls of the Python sources). -/
def insertQ (x : ℚ) : List ℚ → List ℚ
  | [] => [x]
  | y :: ys => if x ≤ y then x :: y :: ys else y :: insertQ x ys

/-- `sorted(times)`: ascending stable sort of rational times. -/
def sortQ : List ℚ → List ℚ
  | [] => []
  | x :: xs => insertQ x (sortQ xs)

/-- The consecutive inter-failure intervals
`[times[i] - times[i-1] for i in range(1, len(times))]`. -/
def intervalsOf (times : List ℚ) : List ℚ :=
  (times.zip times.tail).map fun p => p.2 - p.1

/-- `mean_iv = sum(intervals)/len(intervals)`. -/
def meanIntervals (times : List ℚ) : ℚ :=
  (intervalsOf times).sum / (((intervalsOf times).length : ℕ) : ℚ)

/-- `var_iv = sum((x-mean)**2 for x in intervals)/(len(intervals)-1) if
len(intervals)>1 else 0` (Bessel-corrected sample variance). -/
def varIntervals (times : List ℚ) : ℚ :=
  if 1 < (intervalsOf times).length then
    ((intervalsOf times).map fun x => (x - meanIntervals times) ^ 2).sum /
      ((((intervalsOf times).length - 1 : ℕ)) : ℚ)
  else 0

/-- `lambda_hat = 1/mean_iv if mean_iv>0 else 0` (exponential MLE rate). -/
def lambdaHat (times : List ℚ) : ℚ :=
  if 0 < meanIntervals times then 1 / meanIntervals times else 0

/-- `cov_iv = std_iv/mean_iv if mean_iv>0 else 0`, as a function of the
standard deviation and the mean. -/
def covIv (stdIv meanIv : ℚ) : ℚ :=
  if 0 < meanIv then stdIv / meanIv else 0

/-- The per-repetition interval statistics `main` writes to the stats file. -/
structure IntervalStats where
  failures : ℕ
  meanIv : ℚ
  varIv : ℚ
  lambdaIv : ℚ
deriving DecidableEq, Repr

/-- One repetition of `main`'s statistics loop: with fewer than 2 failure
times it emits the explicit `Not enough failures for statistics.` result
(modelled as `none`) and otherwise the computed statistics. -/
def repStats (times : List ℚ) : Option IntervalStats :=
  if times.length < 2 then none
  else some ⟨times.length, meanIntervals times, varIntervals times, lambdaHat times⟩

/-- `main`'s loop over repetitions: each repetition's times are sorted and
analysed independently of every other repetition. -/
def processReps (reps : List (ℤ × List ℚ)) : List (ℤ × Option IntervalStats) :=
  reps.map fun p => (p.1, repStats (sortQ p.2))

/-- The loop body of `km_survival`: `surv *= (1 - 1/(n - (i-1)))` for the
`i`-th (1-indexed) sorted failure time, emitting `(t, surv)` pairs. -/
def kmAux (n : ℕ) : ℚ → ℕ → List ℚ → List (ℚ × ℚ)
  | _, _, [] => []
  | surv, i, t :: ts =>
    let s2 := surv * (1 - 1 / ((n : ℚ) - ((i : ℚ) - 1)))
    (t, s2) :: kmAux n s2 (i + 1) ts

/-- `km_survival(times)`: the Kaplan-Meier step curve over the sorted times,
starting from survival 1 and index 1. -/
def km_survival (times : List ℚ) : List (ℚ × ℚ) :=
  kmAux times.length 1 1 (sortQ times)

/-- The running Kaplan-Meier product after `k` failures, written from the
spec's formula: survival after the `i`-th failure (1-indexed) is the product
over `j = 1..i` of `(1 - 1/(n - j + 1))`; with `j` 0-indexed the factor is
`(1 - 1/(n - j))`. -/
def survAfter (n k : ℕ) : ℚ :=
  ∏ j ∈ Finset.range k, (1 - 1 / ((n : ℚ) - (j : ℚ)))

/-!
Embedding of `paths_report.py` (`compute_report`) and of the routing-mode
classifier of `analyze_100_packet_scenario.py` (`analyze_paths_csv`).
-/

/-- `event` values of a paths.csv record. -/
inductive EventType
  | TX_SRC
  | TX_FWD_DATA
  | TX_FWD_ACK
  | ENQUEUE_FWD
  | DELIVERED
deriving DecidableEq, Repr

/-- `nextHopType` values of a paths.csv record (`OTHER` stands for any
string that is neither `UNICAST` nor `BCAST`). -/
inductive NextHopType
  | UNICAST
  | BCAST
  | OTHER
deriving DecidableEq, Repr

/-- One paths.csv record (the `Row` namedtuple of `paths_report.py`). -/
structure Row where
  simTime : ℚ
  event : EventType
  packetSeq : ℤ
  src : ℤ
  dst : ℤ
  currentNode : ℤ
  ttlAfterDecr : ℤ
  chosenVia : ℤ
  nextHopType : NextHopType
deriving DecidableEq, Repr

/-- The rows of one flow `by_triplet[(s, d, q)]`, in input order. -/
def flowRows (rows : List Row) (s d q : ℤ) : List Row :=
  rows.filter fun r => decide (r.src = s ∧ r.dst = d ∧ r.packetSeq = q)

/-- Stable insertion by `simTime` (helper for the per-flow
`sort(key=lambda r: r.simTime)`). -/
def insertByTime (r : Row) : List Row → List Row
  | [] => [r]
  | x :: xs => if r.simTime ≤ x.simTime then r :: x :: xs else x :: insertByTime r xs

/-- `lst.sort(key=lambda r: r.simTime)`: stable ascending sort by time. -/
def sortByTime : List Row → List Row
  | [] => []
  | x :: xs => insertByTime x (sortByTime xs)

/-- The `TX_SRC` events of a `(src, dst)` pair, over all of its flows. -/
def txEventsForPair (rows : List Row) (s d : ℤ) : List Row :=
  rows.filter fun r => decide (r.src = s ∧ r.dst = d ∧ r.event = EventType.TX_SRC)

/-- Python's `min(..., key=lambda r: r.simTime)`: keeps the first row of
minimal time. -/
def minByTime (best : Row) : List Row → Row
  | [] => best
  | r :: rs => if r.simTime < best.simTime then minByTime r rs else minByTime best rs

/-- `first_tx = min(tx_events, key=lambda r: r.simTime)` when `tx_events`
is non-empty, `None` (the `continue` branch) otherwise. -/
def firstTxForPair (rows : List Row) (s d : ℤ) : Option Row :=
  match txEventsForPair rows s d with
  | [] => none
  | t :: ts => some (minByTime t ts)

/-- The delivery predicate `r.event == 'DELIVERED' and r.currentNode == dst`. -/
def deliveredAtDst (d : ℤ) (r : Row) : Bool :=
  decide (r.event = EventType.DELIVERED ∧ r.currentNode = d)

/-- Python's `round(q, 6)`. -/
def round6 (q : ℚ) : ℚ := ((round (q * 1000000) : ℤ) : ℚ) / 1000000

/-- Lexicographic order on `(src, dst)` pairs, as Python's `sorted` uses on
tuples. -/
def pairLeB (p q : ℤ × ℤ) : Bool :=
  decide (p.1 < q.1 ∨ (p.1 = q.1 ∧ p.2 ≤ q.2))

/-- Insertion step of the lexicographic pair sort. -/
def insertPair (p : ℤ × ℤ) : List (ℤ × ℤ) → List (ℤ × ℤ)
  | [] => [p]
  | q :: qs => if pairLeB p q then p :: q :: qs else q :: insertPair p qs

/-- Ascending lexicographic sort of `(src, dst)` pairs. -/
def sortPairs : List (ℤ × ℤ) → List (ℤ × ℤ)
  | [] => []
  | p :: ps => insertPair p (sortPairs ps)

/-- `pairs = sorted({(src, dst) for (src, dst, _seq) in by_triplet.keys()
if src >= 1000 and dst >= 1000})`. -/
def pairsOf (rows : List Row) : List (ℤ × ℤ) :=
  sortPairs (((rows.map fun r => (r.src, r.dst)).filter fun p =>
    decide (1000 ≤ p.1 ∧ 1000 ≤ p.2)).dedup)

/-- One output row of `compute_report` (`run_index` and `distance_m`, which
depend on optional CLI inputs absent in the modelled default run, are
omitted). -/
structure ReportRow where
  src : ℤ
  dst : ℤ
  delivered : ℕ
  transit_time_s : Option ℚ
  first_packet_hop_count : Option ℤ
  copies_received_at_dst_for_first_packet : ℕ
  first_tx_time_s : ℚ
  first_delivery_time_s : Option ℚ
deriving DecidableEq, Repr, Inhabited

/-- The body of `compute_report`'s per-pair loop: `None` models the
`continue` on a pair with no `TX_SRC` event. -/
def reportForPair (rows : List Row) (s d : ℤ) : Option ReportRow :=
  match firstTxForPair rows s d with
  | none => none
  | some first_tx =>
    match (sortByTime (flowRows rows s d first_tx.packetSeq)).find? (deliveredAtDst d) with
    | some first_delivered =>
      some {
        src := s
        dst := d
        delivered := if 0 <
          ((sortByTime (flowRows rows s d first_tx.packetSeq)).filter
            (deliveredAtDst d)).length then 1 else 0
        transit_time_s := some (round6 (first_delivered.simTime - first_tx.simTime))
        first_packet_hop_count := some (first_tx.ttlAfterDecr - first_delivered.ttlAfterDecr)
        copies_received_at_dst_for_first_packet :=
          ((sortByTime (flowRows rows s d first_tx.packetSeq)).filter
            (deliveredAtDst d)).length
        first_tx_time_s := round6 first_tx.simTime
        first_delivery_time_s := some (round6 first_delivered.simTime) }
    | none =>
      some {
        src := s
        dst := d
        delivered := if 0 <
          ((rows.filter fun r => decide (r.src = s ∧ r.dst = d)).filter
            (deliveredAtDst d)).length then 1 else 0
        transit_time_s := none
        first_packet_hop_count := none
        copies_received_at_dst_for_first_packet :=
          ((rows.filter fun r => decide (r.src = s ∧ r.dst = d)).filter
            (deliveredAtDst d)).length
        first_tx_time_s := round6 first_tx.simTime
        first_delivery_time_s := none }

/-- `compute_report(rows)` with default `positions=None`, `run_index=None`:
one candidate row per sorted qualifying pair. -/
def compute_report (rows : List Row) : List ReportRow :=
  (pairsOf rows).filterMap fun p => reportForPair rows p.1 p.2

/-- The two routing-mode labels of `analyze_paths_csv`. -/
inductive RoutingMode
  | DSDV
  | FLOODING
deriving DecidableEq, Repr

/-- `event in ["TX_SRC", "TX_FWD_DATA"]`: the events counted for routing
mode detection. -/
def isForwardEvent (e : EventType) : Bool :=
  decide (e = EventType.TX_SRC ∨ e = EventType.TX_FWD_DATA)

/-- `unicast_count`: forward events of the analysed flow with
`nextHopType == 'UNICAST'`. -/
def unicastCount (rows : List Row) (srcId dstId : ℤ) : ℕ :=
  (rows.filter fun r =>
    decide (r.src = srcId ∧ r.dst = dstId) && isForwardEvent r.event &&
      decide (r.nextHopType = NextHopType.UNICAST)).length

/-- `broadcast_count`: forward events of the analysed flow with
`nextHopType == 'BCAST'`. -/
def broadcastCount (rows : List Row) (srcId dstId : ℤ) : ℕ :=
  (rows.filter fun r =>
    decide (r.src = srcId ∧ r.dst = dstId) && isForwardEvent r.event &&
      decide (r.nextHopType = NextHopType.BCAST)).length

/-- The auto-detection rule: `DSDV` iff
`unicast_count > broadcast_count * 2`, else `FLOODING`. -/
def routingModeOf (unicast broadcast : ℕ) : RoutingMode :=
  if broadcast * 2 < unicast then RoutingMode.DSDV else RoutingMode.FLOODING

/-- Routing-mode detection over the event rows of one analysed flow. -/
def detectRoutingMode (rows : List Row) (srcId dstId : ℤ) : RoutingMode :=
  routingModeOf (unicastCount rows srcId dstId) (broadcastCount rows srcId dstId)

/-- Shorthand row constructor for the concrete event logs below
(`chosenVia` is irrelevant to every modelled computation and fixed to 0). -/
def mkRow (t : ℚ) (e : EventType) (q s d c ttl : ℤ) (h : NextHopType) : Row :=
  { simTime := t, event := e, packetSeq := q, src := s, dst := d,
    currentNode := c, ttlAfterDecr := ttl, chosenVia := 0, nextHopType := h }

/-- The C1 scenario log: TX_SRC at t=0 with ttl 5, two DELIVERED events at
the destination 1001 at t=1.5 (ttl 2, listed first to exercise the time
sort) and t=1.2 (ttl 3), plus one relay-side DELIVERED at node 500 that
must be excluded from delivery counting. -/
def c1Log : List Row :=
  [ mkRow 0 EventType.TX_SRC 0 1000 1001 1000 5 NextHopType.BCAST,
    mkRow (3/2) EventType.DELIVERED 0 1000 1001 1001 2 NextHopType.BCAST,
    mkRow (6/5) EventType.DELIVERED 0 1000 1001 1001 3 NextHopType.BCAST,
    mkRow 1 EventType.DELIVERED 0 1000 1001 500 4 NextHopType.BCAST ]

/-- A malformed trace: the TX_SRC records ttl 2, the delivery records
ttl 5, so the TTL-derived hop count is 2 - 5 = -3. -/
def c2Log : List Row :=
  [ mkRow 0 EventType.TX_SRC 0 1000 1001 1000 2 NextHopType.BCAST,
    mkRow 1 EventType.DELIVERED 0 1000 1001 1001 5 NextHopType.BCAST ]

/-- A well-formed trace used to instantiate the non-negativity theorem. -/
def c2wLog : List Row :=
  [ mkRow 0 EventType.TX_SRC 0 1000 1001 1000 5 NextHopType.BCAST,
    mkRow (6/5) EventType.DELIVERED 0 1000 1001 1001 3 NextHopType.BCAST ]

/-- A duplicated failure observation. -/
def c3Dup : Failure := ⟨1, 10, 0⟩

/-- Two failure records with distinct canonical keys (same time, distinct
nodes). -/
def c4X : List Failure := [⟨1, 0, 0⟩, ⟨2, 0, 0⟩]

/-- The same two records in the opposite order. -/
def c4Y : List Failure := [⟨2, 0, 0⟩, ⟨1, 0, 0⟩]

/-- A pair whose earliest TX_SRC flow (packetSeq 0) has no delivery while
another flow of the same pair (packetSeq 1) has one DELIVERED event at the
destination. -/
def c6Log : List Row :=
  [ mkRow 0 EventType.TX_SRC 0 1000 1001 1000 5 NextHopType.BCAST,
    mkRow 2 EventType.DELIVERED 1 1000 1001 1001 3 NextHopType.BCAST ]

/-- A delivered flow used to instantiate the delivered-flag theorem. -/
def c6wLog : List Row :=
  [ mkRow 0 EventType.TX_SRC 0 1000 1001 1000 5 NextHopType.BCAST,
    mkRow (6/5) EventType.DELIVERED 0 1000 1001 1001 3 NextHopType.BCAST ]

/-- Same shape as `c6Log`, for the cross-sequence copy counting of the
per-pair report row. -/
def c10Log : List Row :=
  [ mkRow 0 EventType.TX_SRC 0 1000 1001 1000 5 NextHopType.BCAST,
    mkRow 2 EventType.DELIVERED 1 1000 1001 1001 3 NextHopType.BCAST ]

/-- One unicast forward event of the analysed flow 1000 -> 2000. -/
def c8uRow : Row := mkRow 0 EventType.TX_FWD_DATA 0 1000 2000 1 5 NextHopType.UNICAST

/-- One broadcast forward event of the analysed flow 1000 -> 2000. -/
def c8bRow : Row := mkRow 0 EventType.TX_FWD_DATA 0 1000 2000 1 5 NextHopType.BCAST

/-- A run with 30 unicast and 5 broadcast forward events. -/
def c8LogA : List Row := List.replicate 30 c8uRow ++ List.replicate 5 c8bRow

/-- A run with 5 unicast and 30 broadcast forward events. -/
def c8LogB : List Row := List.replicate 5 c8uRow ++ List.replicate 30 c8bRow

/- ### Helper lemmas about the deduplicator -/

lemma dedupGo_key_mem (l : List Failure) :
    ∀ (seen : List (ℤ × ℤ × ℤ)) (k : ℤ × ℤ × ℤ),
      k ∈ (dedupGo seen l).1.map failureKey ↔ k ∈ l.map failureKey ∧ k ∉ seen := by
  induction l with
  | nil => intro seen k; simp [dedupGo]
  | cons f fs ih =>
    intro seen k
    by_cases hf : failureKey f ∈ seen
    · rw [show dedupGo seen (f :: fs) = ((dedupGo seen fs).1, (dedupGo seen fs).2 + 1) by
        simp [dedupGo, hf]]
      rw [ih seen k]
      simp only [List.map_cons, List.mem_cons]
      constructor
      · rintro ⟨hk, hns⟩; exact ⟨Or.inr hk, hns⟩
      · rintro ⟨hk | hk, hns⟩
        · exact absurd (hk ▸ hf) hns
        · exact ⟨hk, hns⟩
    · rw [show dedupGo seen (f :: fs) =
          (f :: (dedupGo (failureKey f :: seen) fs).1, (dedupGo (failureKey f :: seen) fs).2) by
        simp [dedupGo, hf]]
      simp only [List.map_cons, List.mem_cons]
      rw [ih (failureKey f :: seen) k]
      simp only [List.mem_cons]
      constructor
      · rintro (hk | ⟨hk, hns⟩)
        · exact ⟨Or.inl hk, hk ▸ hf⟩
        · exact ⟨Or.inr hk, fun h => hns (Or.inr h)⟩
      · rintro ⟨hk | hk, hns⟩
        · exact Or.inl hk
        · by_cases hkf : k = failureKey f
          · exact Or.inl hkf
          · exact Or.inr ⟨hk, fun h => by rcases h with h | h <;> [exact hkf h; exact hns h]⟩

lemma dedupGo_keys_nodup (l : List Failure) :
    ∀ seen : List (ℤ × ℤ × ℤ), ((dedupGo seen l).1.map failureKey).Nodup := by
  induction l with
  | nil => intro seen; simp [dedupGo]
  | cons f fs ih =>
    intro seen
    by_cases hf : failureKey f ∈ seen
    · rw [show dedupGo seen (f :: fs) = ((dedupGo seen fs).1, (dedupGo seen fs).2 + 1) by
        simp [dedupGo, hf]]
      exact ih seen
    · rw [show dedupGo seen (f :: fs) =
          (f :: (dedupGo (failureKey f :: seen) fs).1, (dedupGo (failureKey f :: seen) fs).2) by
        simp [dedupGo, hf]]
      simp only [List.map_cons, List.nodup_cons]
      refine ⟨fun hmem => ?_, ih _⟩
      have := (dedupGo_key_mem fs (failureKey f :: seen) (failureKey f)).mp hmem
      exact this.2 (List.mem_cons_self _ _)

lemma dedupGo_of_nodup (l : List Failure) :
    ∀ seen : List (ℤ × ℤ × ℤ), (l.map failureKey).Nodup →
      (∀ k ∈ l.map failureKey, k ∉ seen) → dedupGo seen l = (l, 0) := by
  induction l with
  | nil => intro seen _ _; rfl
  | cons f fs ih =>
    intro seen hnd hdis
    have hf : failureKey f ∉ seen := hdis _ (by simp)
    have hnd' : (fs.map failureKey).Nodup := (List.nodup_cons.mp (by simpa using hnd)).2
    have hdis' : ∀ k ∈ fs.map failureKey, k ∉ failureKey f :: seen := by
      intro k hk
      have hne : k ≠ failureKey f := by
        intro he
        exact (List.nodup_cons.mp (by simpa using hnd)).1 (he ▸ hk)
      have := hdis k (by simp [hk])
      simp [hne, this]
    simp [dedupGo, hf, ih (failureKey f :: seen) hnd' hdis']

/- ### The deduplicator: C3, C4 -/

/-- C3: the deduplicator does return both the deduplicated list and the
dropped count, but the engine's appended output line is the constant
`Done.` for every positive dropped count: the count itself is reported
nowhere, so a drop is indistinguishable from sixty drops. -/
theorem C3_dropped_count_not_reported :
    dedupFailures [c3Dup, c3Dup] = ([c3Dup], 1) ∧
    dupReportLines 1 = ["Done."] ∧ dupReportLines 60 = ["Done."] ∧
    dupReportLines 0 = [] := by
  refine ⟨?_, by norm_num [dupReportLines], by norm_num [dupReportLines],
    by norm_num [dupReportLines]⟩
  norm_num [dedupFailures, dedupGo, failureKey, roundTo9, round_eq, c3Dup]

/-- C4 (counterexample): two records with distinct canonical keys, permuted;
deduplication keeps the input order, so the two deduplicated lists differ. -/
theorem C4_order_dependence :
    List.Perm c4X c4Y ∧ (dedupFailures c4Y).1 ≠ (dedupFailures c4X).1 := by
  constructor
  · decide
  · norm_num [dedupFailures, dedupGo, failureKey, roundTo9, round_eq, c4X, c4Y]

/-- C4 (amended): deduplication is idempotent (re-deduplicating its output
returns the output unchanged with zero drops), and for every permutation of
the input the set of canonical keys of the output is unchanged; the output
list itself follows the input's order and so may differ between
permutations. -/
theorem C4_dedup_idempotent_keyset (X Y : List Failure) (hperm : List.Perm X Y) :
    dedupFailures (dedupFailures X).1 = ((dedupFailures X).1, 0) ∧
    ∀ k : ℤ × ℤ × ℤ,
      k ∈ (dedupFailures Y).1.map failureKey ↔ k ∈ (dedupFailures X).1.map failureKey := by
  constructor
  · exact dedupGo_of_nodup _ [] (dedupGo_keys_nodup X []) (by simp)
  · intro k
    rw [dedupFailures, dedupFailures, dedupGo_key_mem Y [] k, dedupGo_key_mem X [] k]
    simp [(hperm.map failureKey).mem_iff]

/-- C4 witness: the amended statement at the concrete permuted pair of
records. -/
theorem C4_dedup_witness :
    List.Perm c4X c4Y ∧
    (dedupFailures (dedupFailures c4X).1 = ((dedupFailures c4X).1, 0) ∧
      ∀ k : ℤ × ℤ × ℤ,
        k ∈ (dedupFailures c4Y).1.map failureKey ↔
          k ∈ (dedupFailures c4X).1.map failureKey) :=
  ⟨by decide, C4_dedup_idempotent_keyset c4X c4Y (by decide)⟩

/- ### Interval and MLE statistics: C7, C9 -/

lemma intervalsOf_cons_cons (a b : ℚ) (ts : List ℚ) :
    intervalsOf (a :: b :: ts) = (b - a) :: intervalsOf (b :: ts) := rfl

lemma intervals_nonneg : ∀ times : List ℚ, List.Sorted (· ≤ ·) times →
    ∀ x ∈ intervalsOf times, 0 ≤ x := by
  intro times
  induction times with
  | nil => intro _; simp [intervalsOf]
  | cons a rest ih =>
    intro hs
    cases rest with
    | nil => simp [intervalsOf]
    | cons b ts =>
      rw [intervalsOf_cons_cons]
      intro x hx
      rcases List.mem_cons.mp hx with h | h
      · have hab : a ≤ b := (List.sorted_cons.mp hs).1 b (by simp)
        rw [h]
        linarith
      · exact ih (List.sorted_cons.mp hs).2 x h

/-- C7: for a time-sorted list of at least two failure times the computed
rate equals `1/mean(intervals)` (the guard `mean > 0` only also returns 0,
which is `1/0` in `ℚ`, when the mean is 0), and on the scenario
`[10, 12, 15, 25]` the intervals are `[2, 3, 10]`, the mean is 5 and the
rate is 1/5. -/
theorem C7_exponential_mle (times : List ℚ) (h2 : 2 ≤ times.length)
    (hs : List.Sorted (· ≤ ·) times) :
    lambdaHat times = 1 / meanIntervals times ∧
    intervalsOf [10, 12, 15, 25] = [2, 3, 10] ∧
    meanIntervals [10, 12, 15, 25] = 5 ∧
    lambdaHat [10, 12, 15, 25] = 1 / 5 := by
  refine ⟨?_, by norm_num [intervalsOf], by norm_num [meanIntervals, intervalsOf],
    by norm_num [lambdaHat, meanIntervals, intervalsOf]⟩
  have hnn := intervals_nonneg times hs
  have hsum : 0 ≤ (intervalsOf times).sum := List.sum_nonneg hnn
  have hmean : 0 ≤ meanIntervals times :=
    div_nonneg hsum (Nat.cast_nonneg _)
  by_cases hm : 0 < meanIntervals times
  · simp only [lambdaHat, if_pos hm]
  · have h0 : meanIntervals times = 0 := le_antisymm (not_lt.mp hm) hmean
    simp only [lambdaHat, if_neg hm, h0, div_zero]
    norm_num

/-- C7 witness: the theorem applied to the scenario list itself. -/
theorem C7_exponential_mle_witness :
    2 ≤ ([10, 12, 15, 25] : List ℚ).length ∧
    List.Sorted (· ≤ ·) ([10, 12, 15, 25] : List ℚ) ∧
    (lambdaHat [10, 12, 15, 25] = 1 / meanIntervals [10, 12, 15, 25] ∧
      intervalsOf [10, 12, 15, 25] = [2, 3, 10] ∧
      meanIntervals [10, 12, 15, 25] = 5 ∧
      lambdaHat [10, 12, 15, 25] = 1 / 5) :=
  ⟨by norm_num, by decide, C7_exponential_mle [10, 12, 15, 25] (by norm_num) (by decide)⟩

/-- C9: a repetition with fewer than 2 failure times yields the explicit
insufficient-data result and nothing else does; the sample variance is the
squared-deviation sum divided by `n - 1` exactly when the interval count
`n` exceeds 1 and is 0 otherwise; the coefficient of variation is 0 at mean
0; and the per-repetition loop processes every repetition independently of
the repetitions around it. -/
theorem C9_interval_stats_guards :
    (∀ times : List ℚ, repStats times = none ↔ times.length < 2) ∧
    (∀ times : List ℚ, 1 < (intervalsOf times).length →
      varIntervals times * ((((intervalsOf times).length - 1 : ℕ)) : ℚ) =
        ((intervalsOf times).map fun x => (x - meanIntervals times) ^ 2).sum) ∧
    (∀ times : List ℚ, (intervalsOf times).length ≤ 1 → varIntervals times = 0) ∧
    (∀ stdIv : ℚ, covIv stdIv 0 = 0) ∧
    (∀ (pre post : List (ℤ × List ℚ)) (r : ℤ) (ts : List ℚ),
      processReps (pre ++ (r, ts) :: post) =
        processReps pre ++ (r, repStats (sortQ ts)) :: processReps post) := by
  refine ⟨?_, ?_, ?_, ?_, ?_⟩
  · intro times
    unfold repStats
    split <;> simp_all
  · intro times h
    simp only [varIntervals, if_pos h]
    exact div_mul_cancel₀ _ (Nat.cast_ne_zero.mpr (Nat.sub_ne_zero_of_lt h))
  · intro times h
    simp only [varIntervals]
    rw [if_neg (by omega)]
  · intro stdIv
    simp [covIv]
  · intro pre post r ts
    simp [processReps]

/- ### Kaplan-Meier estimator: C5 -/

lemma kmAux_length (n : ℕ) : ∀ (s : ℚ) (i : ℕ) (l : List ℚ),
    (kmAux n s i l).length = l.length := by
  intro s i l
  induction l generalizing s i with
  | nil => rfl
  | cons t ts ih => simp [kmAux, ih]

lemma insertQ_length (x : ℚ) : ∀ l : List ℚ, (insertQ x l).length = l.length + 1 := by
  intro l
  induction l with
  | nil => rfl
  | cons y ys ih =>
    unfold insertQ
    split
    · rfl
    · simp [ih]

lemma sortQ_length : ∀ l : List ℚ, (sortQ l).length = l.length := by
  intro l
  induction l with
  | nil => rfl
  | cons x xs ih => simp [sortQ, insertQ_length, ih]

lemma km_survival_length (times : List ℚ) : (km_survival times).length = times.length := by
  rw [km_survival, kmAux_length, sortQ_length]

lemma kmAux_get (n : ℕ) :
    ∀ (ts : List ℚ) (s : ℚ) (m k : ℕ) (hk : k < (kmAux n s (m + 1) ts).length),
      ((kmAux n s (m + 1) ts).get ⟨k, hk⟩).2 =
        s * ∏ j ∈ Finset.range (k + 1), (1 - 1 / ((n : ℚ) - ((m : ℚ) + (j : ℚ)))) := by
  intro ts
  induction ts with
  | nil => intro s m k hk; simp [kmAux] at hk
  | cons t ts ih =>
    intro s m k hk
    cases k with
    | zero =>
      have h0 : ((kmAux n s (m + 1) (t :: ts)).get ⟨0, hk⟩).2 =
          s * (1 - 1 / ((n : ℚ) - (((m + 1 : ℕ) : ℚ) - 1))) := rfl
      rw [h0, Finset.prod_range_one]
      push_cast
      ring
    | succ k =>
      have hk2 : k < (kmAux n (s * (1 - 1 / ((n : ℚ) - (((m + 1 : ℕ) : ℚ) - 1))))
          (m + 1 + 1) ts).length := by
        rw [kmAux_length]
        have h := hk
        rw [kmAux_length] at h
        simpa using h
      have hstep :
          ((kmAux n s (m + 1) (t :: ts)).get ⟨k + 1, hk⟩).2 =
            ((kmAux n (s * (1 - 1 / ((n : ℚ) - (((m + 1 : ℕ) : ℚ) - 1))))
              (m + 1 + 1) ts).get ⟨k, hk2⟩).2 := rfl
      rw [hstep, ih _ (m + 1) k hk2]
      have hsplit := Finset.prod_range_succ'
        (fun j : ℕ => 1 - 1 / ((n : ℚ) - ((m : ℚ) + (j : ℚ)))) (k + 1)
      simp only at hsplit
      rw [hsplit]
      have hcong :
          (∏ j ∈ Finset.range (k + 1), (1 - 1 / ((n : ℚ) - (((m + 1 : ℕ) : ℚ) + (j : ℚ))))) =
            ∏ j ∈ Finset.range (k + 1),
              (1 - 1 / ((n : ℚ) - ((m : ℚ) + ((j + 1 : ℕ) : ℚ)))) :=
        Finset.prod_congr rfl (fun j _ => by push_cast; ring_nf)
      rw [hcong]
      push_cast
      ring

lemma km_survival_get (times : List ℚ) (k : ℕ) (hk : k < (km_survival times).length) :
    ((km_survival times).get ⟨k, hk⟩).2 = survAfter times.length (k + 1) := by
  have h := kmAux_get times.length (sortQ times) 1 0 k hk
  rw [one_mul] at h
  rw [show ((km_survival times).get ⟨k, hk⟩).2 =
      ((kmAux times.length 1 (0 + 1) (sortQ times)).get ⟨k, hk⟩).2 from rfl, h, survAfter]
  exact Finset.prod_congr rfl (fun j _ => by norm_num)

lemma kmFactor_lt_one (n j : ℕ) (h : j < n) :
    1 - 1 / ((n : ℚ) - (j : ℚ)) < 1 := by
  have hpos : 0 < (n : ℚ) - (j : ℚ) := by
    have hj : (j : ℚ) < (n : ℚ) := by exact_mod_cast h
    linarith
  have hfrac : 0 < 1 / ((n : ℚ) - (j : ℚ)) := by positivity
  linarith

lemma kmFactor_nonneg (n j : ℕ) (h : j < n) :
    0 ≤ 1 - 1 / ((n : ℚ) - (j : ℚ)) := by
  have h1 : (1 : ℚ) ≤ (n : ℚ) - (j : ℚ) := by
    have hj : (j : ℚ) + 1 ≤ (n : ℚ) := by exact_mod_cast h
    linarith
  have hpos : 0 < (n : ℚ) - (j : ℚ) := lt_of_lt_of_le one_pos h1
  have hle : 1 / ((n : ℚ) - (j : ℚ)) ≤ 1 := by
    rw [div_le_one hpos]
    exact h1
  linarith

lemma survAfter_succ (n k : ℕ) :
    survAfter n (k + 1) = survAfter n k * (1 - 1 / ((n : ℚ) - (k : ℚ))) := by
  rw [survAfter, survAfter, Finset.prod_range_succ]

lemma survAfter_bounds (n : ℕ) : ∀ k, k ≤ n → 0 ≤ survAfter n k ∧ survAfter n k ≤ 1 := by
  intro k
  induction k with
  | zero => intro _; simp [survAfter]
  | succ k ih =>
    intro hk
    have hk2 : k ≤ n := Nat.le_of_succ_le hk
    have hlt : k < n := hk
    obtain ⟨h0, h1⟩ := ih hk2
    have hf0 := kmFactor_nonneg n k hlt
    have hf1 := le_of_lt (kmFactor_lt_one n k hlt)
    rw [survAfter_succ]
    refine ⟨mul_nonneg h0 hf0, ?_⟩
    calc survAfter n k * (1 - 1 / ((n : ℚ) - (k : ℚ))) ≤ 1 * 1 :=
      mul_le_mul h1 hf1 hf0 zero_le_one
    _ = 1 := one_mul 1

lemma survAfter_anti (n : ℕ) : ∀ l, l ≤ n → ∀ k, k ≤ l → survAfter n l ≤ survAfter n k := by
  intro l
  induction l with
  | zero =>
    intro _ k hk
    have hk0 : k = 0 := Nat.le_zero.mp hk
    rw [hk0]
  | succ l ih =>
    intro hl k hk
    by_cases hkeq : k = l + 1
    · rw [hkeq]
    · have hkl : k ≤ l := by omega
      have hl2 : l ≤ n := Nat.le_of_succ_le hl
      have hlt : l < n := hl
      have h0 := (survAfter_bounds n l hl2).1
      have step : survAfter n (l + 1) ≤ survAfter n l := by
        rw [survAfter_succ]
        exact mul_le_of_le_one_right h0 (le_of_lt (kmFactor_lt_one n l hlt))
      exact le_trans step (ih hl2 k hkl)

lemma km_map_snd_getLast (times : List ℚ) (hne : times ≠ []) :
    ((km_survival times).map Prod.snd).getLast? =
      some (survAfter times.length times.length) := by
  have hpos : 0 < times.length := List.length_pos.mpr hne
  have hklen : (km_survival times).length = times.length := km_survival_length times
  have hlen : ((km_survival times).map Prod.snd).length = times.length := by
    rw [List.length_map, hklen]
  have hne2 : (km_survival times).map Prod.snd ≠ [] := by
    intro h
    rw [h] at hlen
    simp only [List.length_nil] at hlen
    omega
  rw [List.getLast?_eq_getLast_of_ne_nil hne2]
  have hidx : ((km_survival times).map Prod.snd).length - 1 <
      ((km_survival times).map Prod.snd).length := by
    rw [hlen]
    omega
  rw [← List.get_length_sub_one hidx]
  have hidx2 : ((km_survival times).map Prod.snd).length - 1 < (km_survival times).length := by
    rw [hlen, hklen]
    omega
  have hmap : ((km_survival times).map Prod.snd).get
      ⟨((km_survival times).map Prod.snd).length - 1, hidx⟩ =
        ((km_survival times).get
          ⟨((km_survival times).map Prod.snd).length - 1, hidx2⟩).2 := by
    simp [List.get_eq_getElem, List.getElem_map]
  rw [hmap, km_survival_get]
  have harg : ((km_survival times).map Prod.snd).length - 1 + 1 = times.length := by
    rw [hlen]
    omega
  rw [harg]

/-- C5: every entry of the Kaplan-Meier curve equals the running product of
the factors `(1 - 1/(n - j))` (0-indexed; `(1 - 1/(n - j + 1))` 1-indexed),
the curve is non-increasing and stays inside `[0, 1]`, the value after the
last failure is the product of `n` such factors, and each factor is
strictly below 1. -/
theorem C5_kaplan_meier (times : List ℚ) (hne : times ≠ [])
    (hasc : List.Sorted (· ≤ ·) times) :
    (∀ (k : ℕ) (hk : k < (km_survival times).length),
        ((km_survival times).get ⟨k, hk⟩).2 = survAfter times.length (k + 1)) ∧
    (∀ (k l : ℕ) (hk : k < (km_survival times).length)
        (hl : l < (km_survival times).length), k ≤ l →
        ((km_survival times).get ⟨l, hl⟩).2 ≤ ((km_survival times).get ⟨k, hk⟩).2) ∧
    (∀ (k : ℕ) (hk : k < (km_survival times).length),
        0 ≤ ((km_survival times).get ⟨k, hk⟩).2 ∧
          ((km_survival times).get ⟨k, hk⟩).2 ≤ 1) ∧
    ((km_survival times).map Prod.snd).getLast? =
      some (survAfter times.length times.length) ∧
    (∀ j < times.length, 1 - 1 / ((times.length : ℚ) - (j : ℚ)) < 1) := by
  have hklen := km_survival_length times
  refine ⟨fun k hk => km_survival_get times k hk, ?_, ?_,
    km_map_snd_getLast times hne, ?_⟩
  · intro k l hk hl hkl
    rw [km_survival_get times k hk, km_survival_get times l hl]
    exact survAfter_anti times.length (l + 1) (by omega) (k + 1) (by omega)
  · intro k hk
    rw [km_survival_get times k hk]
    exact survAfter_bounds times.length (k + 1) (by omega)
  · intro j hj
    exact kmFactor_lt_one times.length j hj

/-- C5 witness: the theorem applied to the failure times `[10, 12, 15, 25]`. -/
theorem C5_kaplan_meier_witness :
    (∀ (k : ℕ) (hk : k < (km_survival [(10 : ℚ), 12, 15, 25]).length),
        ((km_survival [(10 : ℚ), 12, 15, 25]).get ⟨k, hk⟩).2 =
          survAfter ([(10 : ℚ), 12, 15, 25] : List ℚ).length (k + 1)) ∧
    (∀ (k l : ℕ) (hk : k < (km_survival [(10 : ℚ), 12, 15, 25]).length)
        (hl : l < (km_survival [(10 : ℚ), 12, 15, 25]).length), k ≤ l →
        ((km_survival [(10 : ℚ), 12, 15, 25]).get ⟨l, hl⟩).2 ≤
          ((km_survival [(10 : ℚ), 12, 15, 25]).get ⟨k, hk⟩).2) ∧
    (∀ (k : ℕ) (hk : k < (km_survival [(10 : ℚ), 12, 15, 25]).length),
        0 ≤ ((km_survival [(10 : ℚ), 12, 15, 25]).get ⟨k, hk⟩).2 ∧
          ((km_survival [(10 : ℚ), 12, 15, 25]).get ⟨k, hk⟩).2 ≤ 1) ∧
    ((km_survival [(10 : ℚ), 12, 15, 25]).map Prod.snd).getLast? =
      some (survAfter ([(10 : ℚ), 12, 15, 25] : List ℚ).length
        ([(10 : ℚ), 12, 15, 25] : List ℚ).length) ∧
    (∀ j < ([(10 : ℚ), 12, 15, 25] : List ℚ).length,
        1 - 1 / ((([(10 : ℚ), 12, 15, 25] : List ℚ).length : ℚ) - (j : ℚ)) < 1) :=
  C5_kaplan_meier [10, 12, 15, 25] (by decide) (by decide)

/- ### Journey reconstruction: C1, C2, C6, C10 -/

/-- C1: on the scenario log the reported first-arrival transit time is 1.2
(= 6/5), the hop count is 5 - 3 = 2 and the copies received are 2; the
relay-side DELIVERED at node 500 is excluded and the minimum-time DELIVERED
at the destination is the one used. -/
theorem C1_first_arrival_scenario :
    compute_report c1Log =
      [{ src := 1000, dst := 1001, delivered := 1,
         transit_time_s := some (6 / 5),
         first_packet_hop_count := some 2,
         copies_received_at_dst_for_first_packet := 2,
         first_tx_time_s := 0,
         first_delivery_time_s := some (6 / 5) }] := by
  norm_num [compute_report, c1Log, mkRow, pairsOf, sortPairs, insertPair, pairLeB,
    reportForPair, firstTxForPair, txEventsForPair, minByTime, sortByTime, insertByTime,
    flowRows, deliveredAtDst, round6, round_eq, List.filter, List.dedup, List.filterMap,
    List.find?]

/-- C2 (counterexample): on the malformed trace the reconstructor reports
the negative hop count -3 in its output row instead of rejecting the
input. -/
theorem C2_negative_hop_reported :
    (compute_report c2Log).map (fun row => row.first_packet_hop_count) = [some (-3)] := by
  norm_num [compute_report, c2Log, mkRow, pairsOf, sortPairs, insertPair, pairLeB,
    reportForPair, firstTxForPair, txEventsForPair, minByTime, sortByTime, insertByTime,
    flowRows, deliveredAtDst, round6, round_eq, List.filter, List.dedup, List.filterMap,
    List.find?]

lemma insertByTime_perm (r : Row) (l : List Row) :
    List.Perm (insertByTime r l) (r :: l) := by
  induction l with
  | nil => exact List.Perm.refl _
  | cons x xs ih =>
    unfold insertByTime
    split
    · exact List.Perm.refl _
    · exact List.Perm.trans (ih.cons x) (List.Perm.swap r x xs)

lemma sortByTime_perm (l : List Row) : List.Perm (sortByTime l) l := by
  induction l with
  | nil => exact List.Perm.refl _
  | cons x xs ih =>
    exact List.Perm.trans (insertByTime_perm x (sortByTime xs)) (ih.cons x)

lemma minByTime_mem (l : List Row) : ∀ best : Row, minByTime best l ∈ best :: l := by
  induction l with
  | nil => intro best; simp [minByTime]
  | cons r rs ih =>
    intro best
    unfold minByTime
    split
    · rcases List.mem_cons.mp (ih r) with h | h
      · rw [h]; simp
      · simp [h]
    · rcases List.mem_cons.mp (ih best) with h | h
      · rw [h]; simp
      · simp [h]

lemma mem_txEventsForPair (rows : List Row) (s d : ℤ) (r : Row)
    (h : r ∈ txEventsForPair rows s d) :
    r ∈ rows ∧ r.src = s ∧ r.dst = d ∧ r.event = EventType.TX_SRC := by
  have h2 := List.mem_filter.mp h
  refine ⟨h2.1, ?_⟩
  simpa using h2.2

lemma firstTxForPair_props (rows : List Row) (s d : ℤ) (t : Row)
    (h : firstTxForPair rows s d = some t) :
    t ∈ rows ∧ t.src = s ∧ t.dst = d ∧ t.event = EventType.TX_SRC := by
  unfold firstTxForPair at h
  cases htx : txEventsForPair rows s d with
  | nil => rw [htx] at h; exact absurd h (by simp)
  | cons a l =>
    rw [htx] at h
    simp only [Option.some.injEq] at h
    have hmem : t ∈ a :: l := h ▸ minByTime_mem l a
    exact mem_txEventsForPair rows s d t (htx ▸ hmem)

lemma mem_flowRows (rows : List Row) (s d q : ℤ) (r : Row)
    (h : r ∈ flowRows rows s d q) :
    r ∈ rows ∧ r.src = s ∧ r.dst = d ∧ r.packetSeq = q := by
  have h2 := List.mem_filter.mp h
  refine ⟨h2.1, ?_⟩
  simpa using h2.2

lemma deliveredAtDst_props (d : ℤ) (r : Row) (h : deliveredAtDst d r = true) :
    r.event = EventType.DELIVERED ∧ r.currentNode = d := by
  simpa [deliveredAtDst] using h

/-- C2 (amended): the reconstructor validates nothing; the reported hop
count is `first_tx.ttlAfterDecr - first_delivered.ttlAfterDecr` as-is.  For
well-formed traces, in which every destination-side DELIVERED record of a
flow carries a TTL no larger than the TTL of every TX_SRC record of that
flow, every reported hop count is non-negative. -/
theorem C2_hop_nonneg (rows : List Row)
    (hwf : ∀ tx ∈ rows, ∀ dl ∈ rows, tx.event = EventType.TX_SRC →
      dl.event = EventType.DELIVERED → dl.src = tx.src → dl.dst = tx.dst →
      dl.packetSeq = tx.packetSeq → dl.currentNode = dl.dst →
      dl.ttlAfterDecr ≤ tx.ttlAfterDecr) :
    ∀ row ∈ compute_report rows, ∀ hc : ℤ,
      row.first_packet_hop_count = some hc → 0 ≤ hc := by
  intro row hrow hc hhc
  obtain ⟨p, hp, heq⟩ := List.mem_filterMap.mp hrow
  unfold reportForPair at heq
  split at heq
  · exact absurd heq (by simp)
  · next first_tx hft =>
    split at heq
    · next first_delivered hfd =>
      simp only [Option.some.injEq] at heq
      subst heq
      simp only at hhc
      have hhc2 : first_tx.ttlAfterDecr - first_delivered.ttlAfterDecr = hc := by
        simpa using hhc
      obtain ⟨htm, hts, htd, hte⟩ := firstTxForPair_props rows p.1 p.2 first_tx hft
      have hfdmem := List.mem_of_find?_eq_some hfd
      have hfdpred := List.find?_some hfd
      obtain ⟨hde, hdn⟩ := deliveredAtDst_props p.2 first_delivered hfdpred
      have hfdflow : first_delivered ∈ flowRows rows p.1 p.2 first_tx.packetSeq :=
        (sortByTime_perm _).mem_iff.mp hfdmem
      obtain ⟨hfm, hfs, hfd2, hfq⟩ :=
        mem_flowRows rows p.1 p.2 first_tx.packetSeq first_delivered hfdflow
      have hle := hwf first_tx htm first_delivered hfm hte hde
        (by rw [hfs, hts]) (by rw [hfd2, htd]) hfq (by rw [hdn, hfd2])
      omega
    · next hfd =>
      simp only [Option.some.injEq] at heq
      subst heq
      simp at hhc

/-- C2 witness: the amended theorem at a concrete well-formed trace. -/
theorem C2_hop_nonneg_witness :
    (∀ tx ∈ c2wLog, ∀ dl ∈ c2wLog, tx.event = EventType.TX_SRC →
      dl.event = EventType.DELIVERED → dl.src = tx.src → dl.dst = tx.dst →
      dl.packetSeq = tx.packetSeq → dl.currentNode = dl.dst →
      dl.ttlAfterDecr ≤ tx.ttlAfterDecr) ∧
    (∀ row ∈ compute_report c2wLog, ∀ hc : ℤ,
      row.first_packet_hop_count = some hc → 0 ≤ hc) :=
  ⟨by decide, C2_hop_nonneg c2wLog (by decide)⟩

lemma length_filter_pos_iff (l : List Row) (f : Row → Bool) :
    0 < (l.filter f).length ↔ ∃ r ∈ l, f r = true := by
  rw [List.length_pos]
  constructor
  · intro h
    obtain ⟨r, hr⟩ := List.exists_mem_of_ne_nil _ h
    exact ⟨r, (List.mem_filter.mp hr).1, (List.mem_filter.mp hr).2⟩
  · rintro ⟨r, hr, hf⟩
    intro hemp
    have hmem := List.mem_filter.mpr ⟨hr, hf⟩
    rw [hemp] at hmem
    exact absurd hmem (List.not_mem_nil _)

lemma ite_one_zero_eq_one (c : Prop) [Decidable c] :
    ((if c then (1 : ℕ) else 0) = 1) ↔ c := by
  split <;> simp_all

/-- C6 (counterexample): on `c6Log` the single report row (for the flow with
packetSeq 0, the earliest TX_SRC) has `delivered = 1` although that flow has
no DELIVERED event at the destination: the fallback branch counts the
DELIVERED event of packetSeq 1. -/
theorem C6_delivered_cross_seq :
    (compute_report c6Log).map (fun row => row.delivered) = [1] ∧
    (firstTxForPair c6Log 1000 1001).map (fun r => r.packetSeq) = some 0 ∧
    (flowRows c6Log 1000 1001 0).filter (deliveredAtDst 1001) = [] := by
  refine ⟨?_, by decide, by decide⟩
  norm_num [compute_report, c6Log, mkRow, pairsOf, sortPairs, insertPair, pairLeB,
    reportForPair, firstTxForPair, txEventsForPair, minByTime, sortByTime, insertByTime,
    flowRows, deliveredAtDst, List.filter, List.dedup, List.filterMap, List.find?]

/-- C6 (amended): a report row has `delivered = 1` exactly when some
DELIVERED event at the destination exists among the events of the row's
`(src, dst)` pair - over all of the pair's packet sequence numbers, not
only the reported flow's. -/
theorem C6_delivered_iff_pair_delivery (rows : List Row) :
    ∀ row ∈ compute_report rows,
      (row.delivered = 1 ↔ ∃ r ∈ rows, r.src = row.src ∧ r.dst = row.dst ∧
        r.event = EventType.DELIVERED ∧ r.currentNode = row.dst) := by
  intro row hrow
  obtain ⟨p, hp, heq⟩ := List.mem_filterMap.mp hrow
  unfold reportForPair at heq
  split at heq
  · exact absurd heq (by simp)
  · next first_tx hft =>
    split at heq
    · next first_delivered hfd =>
      simp only [Option.some.injEq] at heq
      subst heq
      have hfdmem := List.mem_of_find?_eq_some hfd
      have hfdpred := List.find?_some hfd
      obtain ⟨hde, hdn⟩ := deliveredAtDst_props p.2 first_delivered hfdpred
      have hfdflow : first_delivered ∈ flowRows rows p.1 p.2 first_tx.packetSeq :=
        (sortByTime_perm _).mem_iff.mp hfdmem
      obtain ⟨hfm, hfs, hfd2, hfq⟩ :=
        mem_flowRows rows p.1 p.2 first_tx.packetSeq first_delivered hfdflow
      have hpos : 0 < ((sortByTime (flowRows rows p.1 p.2 first_tx.packetSeq)).filter
          (deliveredAtDst p.2)).length := by
        rw [length_filter_pos_iff]
        exact ⟨first_delivered, hfdmem, hfdpred⟩
      simp only [ite_one_zero_eq_one]
      constructor
      · intro _
        exact ⟨first_delivered, hfm, hfs, hfd2, hde, by rw [hdn]⟩
      · intro _
        exact hpos
    · next hfd =>
      simp only [Option.some.injEq] at heq
      subst heq
      simp only [ite_one_zero_eq_one, length_filter_pos_iff]
      constructor
      · rintro ⟨r, hr, hpred⟩
        have hpair := of_decide_eq_true (List.mem_filter.mp hr).2
        obtain ⟨hre, hrn⟩ := deliveredAtDst_props p.2 r hpred
        exact ⟨r, (List.mem_filter.mp hr).1, hpair.1, hpair.2, hre, hrn⟩
      · rintro ⟨r, hr, hrs, hrd, hre, hrn⟩
        refine ⟨r, List.mem_filter.mpr ⟨hr, by simp [hrs, hrd]⟩, ?_⟩
        simp [deliveredAtDst, hre, hrn]

/-- C6 witness: the amended iff at the head row of a delivered flow's
report. -/
theorem C6_delivered_iff_witness :
    ((compute_report c6wLog).head!.delivered = 1 ↔
      ∃ r ∈ c6wLog, r.src = (compute_report c6wLog).head!.src ∧
        r.dst = (compute_report c6wLog).head!.dst ∧
        r.event = EventType.DELIVERED ∧
        r.currentNode = (compute_report c6wLog).head!.dst) :=
  C6_delivered_iff_pair_delivery c6wLog ((compute_report c6wLog).head!)
    (List.head!_mem_self (by
      intro hemp
      have h2 := congrArg List.length hemp
      norm_num [compute_report, c6wLog, mkRow, pairsOf, sortPairs, insertPair, pairLeB,
        reportForPair, firstTxForPair, txEventsForPair, minByTime, sortByTime,
        insertByTime, flowRows, deliveredAtDst, List.filter, List.dedup,
        List.filterMap, List.find?] at h2))

lemma reportForPair_src_dst (rows : List Row) (s d : ℤ) (row : ReportRow)
    (h : reportForPair rows s d = some row) : row.src = s ∧ row.dst = d := by
  unfold reportForPair at h
  split at h
  · exact absurd h (by simp)
  · split at h <;>
    · simp only [Option.some.injEq] at h
      subst h
      exact ⟨rfl, rfl⟩

lemma reportForPair_eq_none_iff (rows : List Row) (s d : ℤ) :
    reportForPair rows s d = none ↔ firstTxForPair rows s d = none := by
  constructor
  · intro h
    unfold reportForPair at h
    split at h
    · next hft => exact hft
    · next first_tx hft => split at h <;> exact absurd h (by simp)
  · intro h
    unfold reportForPair
    rw [h]

lemma compute_report_pairs (rows : List Row) :
    ∀ ps : List (ℤ × ℤ),
      ((ps.filterMap fun p => reportForPair rows p.1 p.2).map fun row => (row.src, row.dst)) =
        ps.filter fun p => (firstTxForPair rows p.1 p.2).isSome := by
  intro ps
  induction ps with
  | nil => rfl
  | cons p ps ih =>
    cases h : reportForPair rows p.1 p.2 with
    | none =>
      have h2 : (firstTxForPair rows p.1 p.2).isSome = false := by
        rw [(reportForPair_eq_none_iff rows p.1 p.2).mp h]
        rfl
      simp only [List.filterMap_cons, h, List.filter_cons, h2]
      simpa using ih
    | some row =>
      have hft : firstTxForPair rows p.1 p.2 ≠ none := by
        intro hn
        rw [(reportForPair_eq_none_iff rows p.1 p.2).mpr hn] at h
        exact absurd h (by simp)
      have h2 : (firstTxForPair rows p.1 p.2).isSome = true := by
        cases hx : firstTxForPair rows p.1 p.2
        · exact absurd hx hft
        · rfl
      obtain ⟨h3, h4⟩ := reportForPair_src_dst rows p.1 p.2 row h
      simp only [List.filterMap_cons, h, List.filter_cons, h2, List.map_cons, ih, if_true]
      simp [h3, h4]

lemma insertPair_perm (p : ℤ × ℤ) (l : List (ℤ × ℤ)) :
    List.Perm (insertPair p l) (p :: l) := by
  induction l with
  | nil => exact List.Perm.refl _
  | cons q qs ih =>
    unfold insertPair
    split
    · exact List.Perm.refl _
    · exact List.Perm.trans (ih.cons q) (List.Perm.swap p q qs)

lemma sortPairs_perm (l : List (ℤ × ℤ)) : List.Perm (sortPairs l) l := by
  induction l with
  | nil => exact List.Perm.refl _
  | cons p ps ih =>
    exact List.Perm.trans (insertPair_perm p (sortPairs ps)) (ih.cons p)

lemma pairsOf_nodup (rows : List Row) : (pairsOf rows).Nodup := by
  unfold pairsOf
  exact ((sortPairs_perm _).nodup_iff).mpr (List.nodup_dedup _)

lemma mem_pairsOf (rows : List Row) (p : ℤ × ℤ) (h : p ∈ pairsOf rows) :
    1000 ≤ p.1 ∧ 1000 ≤ p.2 := by
  unfold pairsOf at h
  have h2 := (sortPairs_perm _).mem_iff.mp h
  rw [List.mem_dedup] at h2
  have h3 := List.mem_filter.mp h2
  exact of_decide_eq_true h3.2

/-- C10 (amended): `compute_report` emits exactly one row per sorted
qualifying pair - a pair with `src, dst >= 1000` and at least one TX_SRC
event - and no row for any other pair; the reported pairs are distinct.
(The row's copy/delivered fields may also count other flows of the pair,
see the counterexample.) -/
theorem C10_one_row_per_pair (rows : List Row) :
    ((compute_report rows).map fun row => (row.src, row.dst)) =
      ((pairsOf rows).filter fun p => (firstTxForPair rows p.1 p.2).isSome) ∧
    ((compute_report rows).map fun row => (row.src, row.dst)).Nodup ∧
    (∀ row ∈ compute_report rows, 1000 ≤ row.src ∧ 1000 ≤ row.dst ∧
      ∃ tx ∈ rows, tx.src = row.src ∧ tx.dst = row.dst ∧
        tx.event = EventType.TX_SRC) := by
  have hmap := compute_report_pairs rows (pairsOf rows)
  refine ⟨hmap, ?_, ?_⟩
  · rw [show ((compute_report rows).map fun row => (row.src, row.dst)) =
        ((pairsOf rows).filter fun p => (firstTxForPair rows p.1 p.2).isSome) from hmap]
    exact (pairsOf_nodup rows).filter _
  · intro row hrow
    obtain ⟨p, hp, heq⟩ := List.mem_filterMap.mp hrow
    obtain ⟨h1, h2⟩ := mem_pairsOf rows p hp
    obtain ⟨hs, hd⟩ := reportForPair_src_dst rows p.1 p.2 row heq
    cases hx : firstTxForPair rows p.1 p.2 with
    | none =>
      rw [(reportForPair_eq_none_iff rows p.1 p.2).mpr hx] at heq
      exact absurd heq (by simp)
    | some t =>
      obtain ⟨htm, hts, htd, hte⟩ := firstTxForPair_props rows p.1 p.2 t hx
      exact ⟨by rw [hs]; exact h1, by rw [hd]; exact h2,
        t, htm, by rw [hts, hs], by rw [htd, hd], hte⟩

/-- C10 (counterexample): the single report row of `c10Log` belongs to the
flow with packetSeq 0 (the earliest TX_SRC), yet its copies-received field
counts 1 although every DELIVERED event of the log has packetSeq 1: the row
does not describe exclusively the earliest TX_SRC's flow. -/
theorem C10_copies_cross_seq :
    (compute_report c10Log).map
        (fun row => row.copies_received_at_dst_for_first_packet) = [1] ∧
    (firstTxForPair c10Log 1000 1001).map (fun r => r.packetSeq) = some 0 ∧
    (flowRows c10Log 1000 1001 0).filter (deliveredAtDst 1001) = [] ∧
    (∀ r ∈ c10Log, r.event = EventType.DELIVERED → r.packetSeq = 1) := by
  refine ⟨?_, by decide, by decide, by decide⟩
  norm_num [compute_report, c10Log, mkRow, pairsOf, sortPairs, insertPair, pairLeB,
    reportForPair, firstTxForPair, txEventsForPair, minByTime, sortByTime, insertByTime,
    flowRows, deliveredAtDst, List.filter, List.dedup, List.filterMap, List.find?]

/- ### Routing-mode classifier: C8 -/

/-- C8: the classifier labels a run DSDV (table-directed) exactly when the
unicast forward count strictly exceeds twice the broadcast forward count,
and FLOODING otherwise; 30 unicast / 5 broadcast forward events classify as
DSDV and 5 unicast / 30 broadcast as FLOODING, both at the count level and
over the corresponding event logs. -/
theorem C8_routing_classifier :
    (∀ u b : ℕ, routingModeOf u b = RoutingMode.DSDV ↔ b * 2 < u) ∧
    (∀ u b : ℕ, routingModeOf u b = RoutingMode.FLOODING ↔ ¬ b * 2 < u) ∧
    unicastCount c8LogA 1000 2000 = 30 ∧ broadcastCount c8LogA 1000 2000 = 5 ∧
    detectRoutingMode c8LogA 1000 2000 = RoutingMode.DSDV ∧
    unicastCount c8LogB 1000 2000 = 5 ∧ broadcastCount c8LogB 1000 2000 = 30 ∧
    detectRoutingMode c8LogB 1000 2000 = RoutingMode.FLOODING := by
  refine ⟨?_, ?_, by decide, by decide, by decide, by decide, by decide, by decide⟩
  · intro u b
    unfold routingModeOf
    split <;> simp_all
  · intro u b
    unfold routingModeOf
    split <;> simp_all
